import Mathlib

/-!
Verification of the FeatureCollection object protocol and the Position
abstraction of the geojson crate (`src/feature_collection.rs`,
`src/position.rs`), over a shallow embedding in Lean.

Modelling conventions:
* JSON values are the inductive `JsonValue`; the order-preserving object
  container (serde_json `Map` with insertion order) is an association list
  `JsonObject` with `insert` updating in place and `removeAll` shifting the
  remaining entries.
* `f64` is modelled by `ℚ`: the code under verification never performs
  floating-point arithmetic, it only moves ordinate values around verbatim,
  so an exact numeric carrier is faithful for every claim considered.
* Fallible code returns `Except Error`; code that can also abort the process
  (`unimplemented!`) returns `PResult`, whose `panic` constructor records
  the abort.
-/

namespace Geojson

/-- Generic JSON value: discriminated variants object, array, string,
number, boolean, null.  Objects preserve insertion order. -/
inductive JsonValue : Type where
  | null : JsonValue
  | bool (b : Bool) : JsonValue
  | num (q : ℚ) : JsonValue
  | str (s : String) : JsonValue
  | arr (elems : List JsonValue) : JsonValue
  | obj (members : List (String × JsonValue)) : JsonValue

/-- Order-preserving string-keyed object container (serde_json `Map` with
the preserve-order feature): an association list of members. -/
abbrev JsonObject : Type := List (String × JsonValue)

/-- `Map::insert`: update the value in place when the key is present,
append a new entry otherwise. -/
def JsonObject.insert : JsonObject → String → JsonValue → JsonObject
  | [], k, v => [(k, v)]
  | (k₀, v₀) :: rest, k, v =>
    if k₀ = k then (k, v) :: rest else (k₀, v₀) :: JsonObject.insert rest k v

/-- Key lookup (`Map::get`): first entry with the given key. -/
def JsonObject.get : JsonObject → String → Option JsonValue
  | [], _ => none
  | (k₀, v₀) :: rest, k => if k₀ = k then some v₀ else JsonObject.get rest k

/-- Order-preserving key removal (`Map::remove` with shift semantics); the
container has no duplicate keys, so removing every entry with the key is
the same operation. -/
def JsonObject.removeAll : JsonObject → String → JsonObject
  | [], _ => []
  | (k₀, v₀) :: rest, k =>
    if k₀ = k then JsonObject.removeAll rest k
    else (k₀, v₀) :: JsonObject.removeAll rest k

/-- The keys of the object, in stored order. -/
def JsonObject.Keys (m : JsonObject) : List String := m.map Prod.fst

/-- The crate's shared error taxonomy (`errors.rs`, outside `src/`).
Modelled from the spec: `ExpectedType{expected, actual}` for a mismatched
top-level type tag, `GeoJsonExpectedObject(value)` for a non-object root,
and element-level type-mismatch errors for non-array, non-numeric or
missing data. -/
inductive Error : Type where
  | ExpectedType (expected : String) (actual : String) : Error
  | GeoJsonExpectedObject (value : JsonValue) : Error
  | ExpectedProperty (name : String) : Error
  | ExpectedArrayValue (value : JsonValue) : Error
  | ExpectedNumericValue (value : JsonValue) : Error
  | ExpectedStringValue (value : JsonValue) : Error

/-- Result of a call that may also abort the process: `panic` records an
`unimplemented!` / index-out-of-bounds abort, distinct from returning a
typed `Error`. -/
inductive PResult (α : Type) : Type where
  | ok (a : α) : PResult α
  | error (e : Error) : PResult α
  | panic : PResult α

/-- Modelled from the spec: `Feature` is an external collaborator,
"consumed/produced as an opaque unit by the collection layer", with a
parse/serialize pair opaque to this core.  A feature is carried as the
JSON object it serializes to. -/
structure Feature : Type where
  data : JsonObject

/-- Modelled from the spec: the opaque Feature serializer. -/
def Feature.toJson (f : Feature) : JsonValue := JsonValue.obj f.data

/-- Modelled from the spec: the opaque Feature parser, inverse of
`Feature.toJson` on its image. -/
def Feature.fromJson : JsonValue → Except Error Feature
  | JsonValue.obj o => Except.ok ⟨o⟩
  | v => Except.error (Error.GeoJsonExpectedObject v)

/-- Modelled from the spec: `util::expect_array` — the value must be a
JSON array, otherwise a type-mismatch error. -/
def expect_array : JsonValue → Except Error (List JsonValue)
  | JsonValue.arr elems => Except.ok elems
  | v => Except.error (Error.ExpectedArrayValue v)

/-- Modelled from the spec: `util::expect_f64` — the value must be
numeric (float64-representable), otherwise a type-mismatch error. -/
def expect_f64 : JsonValue → Except Error ℚ
  | JsonValue.num q => Except.ok q
  | v => Except.error (Error.ExpectedNumericValue v)

/-- Every element of the list through `expect_f64`, in order, first error
wins (the collection loop of the callers). -/
def expect_f64_list : List JsonValue → Except Error (List ℚ)
  | [] => Except.ok []
  | x :: rest =>
    match expect_f64 x with
    | Except.error e => Except.error e
    | Except.ok q =>
      match expect_f64_list rest with
      | Except.error e => Except.error e
      | Except.ok qs => Except.ok (q :: qs)

/-- Modelled from the spec: `util::expect_type` — destructively extract
the "type" member, which must be present and a string.  Returns the tag
and the object with the member removed. -/
def expect_type (object : JsonObject) : Except Error (String × JsonObject) :=
  match object.get "type" with
  | some (JsonValue.str s) => Except.ok (s, object.removeAll "type")
  | some v => Except.error (Error.ExpectedStringValue v)
  | none => Except.error (Error.ExpectedProperty "type")

/-- Modelled from the spec: `util::get_bbox` — destructively extract the
optional "bbox" member as an ordered float64 sequence; a non-array value
or a non-numeric element is a type-mismatch error. -/
def get_bbox (object : JsonObject) : Except Error (Option (List ℚ) × JsonObject) :=
  match object.get "bbox" with
  | none => Except.ok (none, object)
  | some v =>
    match expect_array v with
    | Except.error e => Except.error e
    | Except.ok elems =>
      match expect_f64_list elems with
      | Except.error e => Except.error e
      | Except.ok qs => Except.ok (some qs, object.removeAll "bbox")

/-- Every element of the list through the Feature parser, in order, first
error wins. -/
def parse_features : List JsonValue → Except Error (List Feature)
  | [] => Except.ok []
  | x :: rest =>
    match Feature.fromJson x with
    | Except.error e => Except.error e
    | Except.ok f =>
      match parse_features rest with
      | Except.error e => Except.error e
      | Except.ok fs => Except.ok (f :: fs)

/-- Modelled from the spec: `util::get_features` — destructively extract
the required "features" member as an ordered sequence of Features via the
Feature parser; absence or malformed content fails. -/
def get_features (object : JsonObject) : Except Error (List Feature × JsonObject) :=
  match object.get "features" with
  | none => Except.error (Error.ExpectedProperty "features")
  | some v =>
    match expect_array v with
    | Except.error e => Except.error e
    | Except.ok elems =>
      match parse_features elems with
      | Except.error e => Except.error e
      | Except.ok fs => Except.ok (fs, object.removeAll "features")

/-- Modelled from the spec: `util::get_foreign_members` — all remaining
keys become foreign members; an empty remainder collapses to `none`. -/
def get_foreign_members (object : JsonObject) : Except Error (Option JsonObject) :=
  if object.isEmpty then Except.ok none else Except.ok (some object)

/-- `FeatureCollection` (src/feature_collection.rs, lines 50-62): optional
bounding box, ordered features, optional foreign members. -/
structure FeatureCollection : Type where
  bbox : Option (List ℚ)
  features : List Feature
  foreign_members : Option JsonObject

/-- `impl Serialize for FeatureCollection` (lines 64-82), evaluated with
the JSON-value serializer: emit "type", then "bbox" if present, then each
foreign member in stored order, then "features".  The entries stream into
an order-preserving map. -/
def FeatureCollection.serializeEntries (fc : FeatureCollection) : JsonObject :=
  let map : JsonObject := []
  let map := map.insert "type" (JsonValue.str "FeatureCollection")
  let map :=
    match fc.bbox with
    | some bbox => map.insert "bbox" (JsonValue.arr (bbox.map JsonValue.num))
    | none => map
  let map :=
    match fc.foreign_members with
    | some members => members.foldl (fun (m : JsonObject) (kv : String × JsonValue) => m.insert kv.1 kv.2) map
    | none => map
  map.insert "features" (JsonValue.arr (fc.features.map Feature.toJson))

/-- The serializer output as a JSON value. -/
def FeatureCollection.serialize (fc : FeatureCollection) : JsonValue :=
  JsonValue.obj fc.serializeEntries

/-- `impl From<&FeatureCollection> for JsonObject` (lines 84-105): insert
"type", "features", then "bbox" if present, then the foreign members. -/
def FeatureCollection.to_json_object (fc : FeatureCollection) : JsonObject :=
  let map : JsonObject := []
  let map := map.insert "type" (JsonValue.str "FeatureCollection")
  let map := map.insert "features" (JsonValue.arr (fc.features.map Feature.toJson))
  let map :=
    match fc.bbox with
    | some bbox => map.insert "bbox" (JsonValue.arr (bbox.map JsonValue.num))
    | none => map
  match fc.foreign_members with
  | some members => members.foldl (fun (m : JsonObject) (kv : String × JsonValue) => m.insert kv.1 kv.2) map
  | none => map

/-- `impl TryFrom<JsonObject> for FeatureCollection` (lines 117-133):
check the type tag first, then extract bbox, features, and the remainder
as foreign members. -/
def FeatureCollection.from_json_object (object : JsonObject) : Except Error FeatureCollection :=
  match expect_type object with
  | Except.error e => Except.error e
  | Except.ok (type_, object) =>
    if type_ = "FeatureCollection" then
      match get_bbox object with
      | Except.error e => Except.error e
      | Except.ok (bbox, object) =>
        match get_features object with
        | Except.error e => Except.error e
        | Except.ok (features, object) =>
          match get_foreign_members object with
          | Except.error e => Except.error e
          | Except.ok foreign_members => Except.ok ⟨bbox, features, foreign_members⟩
    else
      Except.error (Error.ExpectedType "FeatureCollection" type_)

/-- `impl TryFrom<JsonValue> for FeatureCollection` (lines 135-145):
require an object root, else `GeoJsonExpectedObject`. -/
def FeatureCollection.from_json_value : JsonValue → Except Error FeatureCollection
  | JsonValue.obj o => FeatureCollection.from_json_object o
  | v => Except.error (Error.GeoJsonExpectedObject v)

/-- The reserved member keys of a FeatureCollection object. -/
def reservedKeys : List String := ["type", "bbox", "features"]

/-- Well-formedness of the foreign-member side channel: when present, its
keys are pairwise distinct (it is a map) and lie outside the reserved
set. -/
def FeatureCollection.WFForeign (fc : FeatureCollection) : Prop :=
  ∀ members, fc.foreign_members = some members →
    members.Keys.Nodup ∧ ∀ k ∈ members.Keys, k ∉ reservedKeys

/-- A valid FeatureCollection value: well-formed foreign members that are
moreover absent rather than an empty map. -/
def FeatureCollection.Valid (fc : FeatureCollection) : Prop :=
  fc.WFForeign ∧ ∀ members, fc.foreign_members = some members → members ≠ []

/-- The "bbox" entry a FeatureCollection contributes to its JSON object,
empty when the bbox is absent. -/
def FeatureCollection.bboxEntries (fc : FeatureCollection) : JsonObject :=
  match fc.bbox with
  | some bbox => [("bbox", JsonValue.arr (bbox.map JsonValue.num))]
  | none => []

/-- The foreign-member entries a FeatureCollection contributes to its
JSON object, empty when they are absent. -/
def FeatureCollection.foreignEntries (fc : FeatureCollection) : JsonObject :=
  match fc.foreign_members with
  | some members => members
  | none => []

/-- `impl Position for Vec<f64>` (src/position.rs, lines 15-36). -/
def VecPosition.from_json_value (json : JsonValue) : Except Error (List ℚ) :=
  match expect_array json with
  | Except.error e => Except.error e
  | Except.ok coords_array => expect_f64_list coords_array

def VecPosition.from_x_y (x y : ℚ) : List ℚ := [x, y]

/-- `self[0]`: panics when the vector is empty. -/
def VecPosition.x (self : List ℚ) : PResult ℚ :=
  match self.get? 0 with
  | some q => PResult.ok q
  | none => PResult.panic

/-- `self[1]`: panics when the vector has fewer than two elements. -/
def VecPosition.y (self : List ℚ) : PResult ℚ :=
  match self.get? 1 with
  | some q => PResult.ok q
  | none => PResult.panic

/-- `impl Position for (f64, f64)` (lines 38-61): the array length must be
exactly 2, else `unimplemented!`. -/
def PairPosition.from_json_value (json : JsonValue) : PResult (ℚ × ℚ) :=
  match expect_array json with
  | Except.error e => PResult.error e
  | Except.ok coords_array =>
    match coords_array with
    | [a, b] =>
      match expect_f64 a with
      | Except.error e => PResult.error e
      | Except.ok x =>
        match expect_f64 b with
        | Except.error e => PResult.error e
        | Except.ok y => PResult.ok (x, y)
    | _ => PResult.panic

def PairPosition.from_x_y (x y : ℚ) : ℚ × ℚ := (x, y)

def PairPosition.x (self : ℚ × ℚ) : ℚ := self.1

def PairPosition.y (self : ℚ × ℚ) : ℚ := self.2

/-- `impl Position for (f64, f64, f64)` (lines 63-87): the array length
must be exactly 3, else `unimplemented!`. -/
def TriplePosition.from_json_value (json : JsonValue) : PResult (ℚ × ℚ × ℚ) :=
  match expect_array json with
  | Except.error e => PResult.error e
  | Except.ok coords_array =>
    match coords_array with
    | [a, b, c] =>
      match expect_f64 a with
      | Except.error e => PResult.error e
      | Except.ok x =>
        match expect_f64 b with
        | Except.error e => PResult.error e
        | Except.ok y =>
          match expect_f64 c with
          | Except.error e => PResult.error e
          | Except.ok z => PResult.ok (x, y, z)
    | _ => PResult.panic

/-- `from_x_y` for the fixed 3-tuple is `unimplemented!`: it always
aborts instead of constructing a value. -/
def TriplePosition.from_x_y (_x _y : ℚ) : PResult (ℚ × ℚ × ℚ) := PResult.panic

def TriplePosition.x (self : ℚ × ℚ × ℚ) : ℚ := self.1

def TriplePosition.y (self : ℚ × ℚ × ℚ) : ℚ := self.2.1


/-! ### Helper lemmas about the object container -/

@[simp] theorem JsonObject.get_nil (k : String) : JsonObject.get [] k = none := rfl

@[simp] theorem JsonObject.get_cons (k₀ : String) (v₀ : JsonValue) (m : JsonObject) (k : String) :
    JsonObject.get ((k₀, v₀) :: m) k = if k₀ = k then some v₀ else JsonObject.get m k := rfl

@[simp] theorem JsonObject.removeAll_nil (k : String) : JsonObject.removeAll [] k = [] := rfl

@[simp] theorem JsonObject.removeAll_cons (k₀ : String) (v₀ : JsonValue) (m : JsonObject)
    (k : String) :
    JsonObject.removeAll ((k₀, v₀) :: m) k =
      if k₀ = k then JsonObject.removeAll m k else (k₀, v₀) :: JsonObject.removeAll m k := rfl

@[simp] theorem JsonObject.insert_nil (k : String) (v : JsonValue) :
    JsonObject.insert [] k v = [(k, v)] := rfl

@[simp] theorem JsonObject.insert_cons (k₀ : String) (v₀ : JsonValue) (m : JsonObject)
    (k : String) (v : JsonValue) :
    JsonObject.insert ((k₀, v₀) :: m) k v =
      if k₀ = k then (k, v) :: m else (k₀, v₀) :: JsonObject.insert m k v := rfl

@[simp] theorem JsonObject.Keys_nil : JsonObject.Keys [] = [] := rfl

@[simp] theorem JsonObject.Keys_cons (k₀ : String) (v₀ : JsonValue) (m : JsonObject) :
    JsonObject.Keys ((k₀, v₀) :: m) = k₀ :: m.Keys := rfl

@[simp] theorem JsonObject.Keys_append (m₁ m₂ : JsonObject) :
    JsonObject.Keys (m₁ ++ m₂) = m₁.Keys ++ m₂.Keys := List.map_append _ _ _

theorem JsonObject.get_append (m₁ m₂ : JsonObject) (k : String) :
    JsonObject.get (m₁ ++ m₂) k =
      (JsonObject.get m₁ k).orElse (fun _ => JsonObject.get m₂ k) := by
  induction m₁ with
  | nil => rfl
  | cons p rest ih =>
    obtain ⟨k₀, v₀⟩ := p
    by_cases hk : k₀ = k <;> simp [hk, ih]

theorem JsonObject.get_of_forall_ne (m : JsonObject) (k : String)
    (h : ∀ k₀ ∈ m.Keys, k₀ ≠ k) : JsonObject.get m k = none := by
  induction m with
  | nil => rfl
  | cons p rest ih =>
    obtain ⟨k₀, v₀⟩ := p
    have h₀ : k₀ ≠ k := h k₀ (by simp)
    simp only [get_cons, if_neg h₀]
    exact ih (fun k₁ hk₁ => h k₁ (by simp [hk₁]))

theorem JsonObject.removeAll_of_forall_ne (m : JsonObject) (k : String)
    (h : ∀ k₀ ∈ m.Keys, k₀ ≠ k) : JsonObject.removeAll m k = m := by
  induction m with
  | nil => rfl
  | cons p rest ih =>
    obtain ⟨k₀, v₀⟩ := p
    have h₀ : k₀ ≠ k := h k₀ (by simp)
    simp only [removeAll_cons, if_neg h₀]
    rw [ih (fun k₁ hk₁ => h k₁ (by simp [hk₁]))]

theorem JsonObject.removeAll_append (m₁ m₂ : JsonObject) (k : String) :
    JsonObject.removeAll (m₁ ++ m₂) k =
      JsonObject.removeAll m₁ k ++ JsonObject.removeAll m₂ k := by
  induction m₁ with
  | nil => rfl
  | cons p rest ih =>
    obtain ⟨k₀, v₀⟩ := p
    by_cases hk : k₀ = k <;> simp [hk, ih]

theorem JsonObject.get_eq_none_iff (m : JsonObject) (k : String) :
    JsonObject.get m k = none ↔ ∀ k₀ ∈ m.Keys, k₀ ≠ k := by
  induction m with
  | nil => simp
  | cons p rest ih =>
    obtain ⟨k₁, v₁⟩ := p
    by_cases hk : k₁ = k
    · simp [get_cons, hk]
    · simp [get_cons, hk, ih]

theorem JsonObject.removeAll_of_get_none (m : JsonObject) (k : String)
    (h : JsonObject.get m k = none) : JsonObject.removeAll m k = m :=
  removeAll_of_forall_ne m k ((get_eq_none_iff m k).mp h)

theorem JsonObject.get_removeAll_ne (m : JsonObject) (k₀ k : String) (h : k₀ ≠ k) :
    JsonObject.get (m.removeAll k₀) k = JsonObject.get m k := by
  induction m with
  | nil => rfl
  | cons p rest ih =>
    obtain ⟨k₁, v₁⟩ := p
    by_cases hk₁ : k₁ = k₀
    · subst hk₁
      simp [removeAll_cons, ih, get_cons, if_neg h]
    · simp only [removeAll_cons, if_neg hk₁, get_cons, ih]

theorem JsonObject.insert_of_forall_ne (m : JsonObject) (k : String) (v : JsonValue)
    (h : ∀ k₀ ∈ m.Keys, k₀ ≠ k) : JsonObject.insert m k v = m ++ [(k, v)] := by
  induction m with
  | nil => rfl
  | cons p rest ih =>
    obtain ⟨k₀, v₀⟩ := p
    have h₀ : k₀ ≠ k := h k₀ (by simp)
    simp only [insert_cons, if_neg h₀, List.cons_append, List.cons.injEq, true_and]
    exact ih (fun k₁ hk₁ => h k₁ (by simp [hk₁]))

theorem JsonObject.foldl_insert_fresh (members : JsonObject) (m : JsonObject)
    (hnd : members.Keys.Nodup)
    (hfresh : ∀ k ∈ members.Keys, ∀ k₀ ∈ m.Keys, k₀ ≠ k) :
    members.foldl (fun (acc : JsonObject) (kv : String × JsonValue) =>
        acc.insert kv.1 kv.2) m = m ++ members := by
  induction members generalizing m with
  | nil => simp
  | cons p rest ih =>
    obtain ⟨k, v⟩ := p
    rw [Keys_cons] at hnd
    have hknotin : k ∉ JsonObject.Keys rest := (List.nodup_cons.mp hnd).1
    have hndrest : (JsonObject.Keys rest).Nodup := (List.nodup_cons.mp hnd).2
    have hfresh2 : ∀ k₁ ∈ JsonObject.Keys rest, ∀ k₀ ∈ JsonObject.Keys (m ++ [(k, v)]), k₀ ≠ k₁ := by
      intro k₁ hk₁ k₀ hk₀
      rw [Keys_append] at hk₀
      rcases List.mem_append.mp hk₀ with hm | hsing
      · exact hfresh k₁ (by simp [hk₁]) k₀ hm
      · have hk₀k : k₀ = k := by simpa using hsing
        subst hk₀k
        intro hkk
        apply hknotin
        rw [hkk]
        exact hk₁
    simp only [List.foldl_cons]
    rw [insert_of_forall_ne m k v (hfresh k (by simp)), ih (m ++ [(k, v)]) hndrest hfresh2]
    simp

/-! ### Helper lemmas about the extraction routines -/

@[simp] theorem expect_f64_list_map_num (qs : List ℚ) :
    expect_f64_list (qs.map JsonValue.num) = Except.ok qs := by
  induction qs with
  | nil => rfl
  | cons q rest ih => simp [expect_f64_list, expect_f64, ih]

@[simp] theorem parse_features_map_toJson (fs : List Feature) :
    parse_features (fs.map Feature.toJson) = Except.ok fs := by
  induction fs with
  | nil => rfl
  | cons f rest ih => simp [parse_features, Feature.toJson, Feature.fromJson, ih]

theorem expect_f64_list_error_of_mem (elems : List JsonValue)
    (h : ∃ x ∈ elems, ∀ q : ℚ, x ≠ JsonValue.num q) :
    ∃ e, expect_f64_list elems = Except.error e := by
  induction elems with
  | nil => simp at h
  | cons x rest ih =>
    obtain ⟨y, hy, hyn⟩ := h
    rcases List.mem_cons.mp hy with rfl | hyr
    · have hx : ∃ e, expect_f64 y = Except.error e := by
        cases y
        case num q => exact absurd rfl (hyn q)
        all_goals exact ⟨_, rfl⟩
      obtain ⟨e, he⟩ := hx
      exact ⟨e, by simp [expect_f64_list, he]⟩
    · rcases hx : expect_f64 x with e | q
      · exact ⟨e, by simp [expect_f64_list, hx]⟩
      · obtain ⟨e, he⟩ := ih ⟨y, hyr, hyn⟩
        exact ⟨e, by simp [expect_f64_list, hx, he]⟩

/-! ### Claim theorems -/

/-- C3: parsing any JSON object whose "type" member is a string different
from "FeatureCollection" fails with `ExpectedType{expected:
"FeatureCollection", actual: that string}`, regardless of the other
members, because the type tag is checked before any other field. -/
theorem from_json_object_type_mismatch (o : JsonObject) (s : String)
    (hget : o.get "type" = some (JsonValue.str s)) (hne : s ≠ "FeatureCollection") :
    FeatureCollection.from_json_object o =
      Except.error (Error.ExpectedType "FeatureCollection" s) := by
  unfold FeatureCollection.from_json_object expect_type
  rw [hget]
  simp [hne]

/-- C3 witness: `{"type":"Feature","features":[]}` fails with
`ExpectedType{expected:"FeatureCollection", actual:"Feature"}`. -/
theorem from_json_object_type_mismatch_witness :
    FeatureCollection.from_json_object
        [("type", JsonValue.str "Feature"), ("features", JsonValue.arr [])] =
      Except.error (Error.ExpectedType "FeatureCollection" "Feature") :=
  from_json_object_type_mismatch _ "Feature" rfl (by decide)

/-- C4: `from_json_value` rejects every non-object root with
`GeoJsonExpectedObject(value)` and delegates objects to
`from_json_object` unchanged. -/
theorem from_json_value_delegates (v : JsonValue) :
    FeatureCollection.from_json_value v =
      match v with
      | JsonValue.obj o => FeatureCollection.from_json_object o
      | _ => Except.error (Error.GeoJsonExpectedObject v) := by
  cases v <;> rfl

/-- C7 counterexample: for the fixed 3-tuple representation,
`from_json_value` on the array `[1.5, 2.5]` aborts (`unimplemented!`)
instead of returning Ok, and so does `from_x_y(1.5, 2.5)`; the claim is
false as stated for that representation. -/
theorem position_roundtrip_cex :
    TriplePosition.from_json_value
        (JsonValue.arr [JsonValue.num 1.5, JsonValue.num 2.5]) = PResult.panic ∧
    TriplePosition.from_x_y 1.5 2.5 = PResult.panic :=
  ⟨rfl, rfl⟩

/-- C7 amended: for the Vec and 2-tuple representations, parsing
`[1.5, 2.5]` yields Ok with `x() == 1.5` and `y() == 2.5`, and
`from_x_y(1.5, 2.5)` builds a position with the same `x()`/`y()`; the
fixed 3-tuple representation instead aborts on both operations. -/
theorem position_roundtrip_amended :
    VecPosition.from_json_value (JsonValue.arr [JsonValue.num 1.5, JsonValue.num 2.5])
        = Except.ok [1.5, 2.5] ∧
    VecPosition.x [1.5, 2.5] = PResult.ok 1.5 ∧
    VecPosition.y [1.5, 2.5] = PResult.ok 2.5 ∧
    VecPosition.from_x_y 1.5 2.5 = [1.5, 2.5] ∧
    PairPosition.from_json_value (JsonValue.arr [JsonValue.num 1.5, JsonValue.num 2.5])
        = PResult.ok (1.5, 2.5) ∧
    PairPosition.x (1.5, 2.5) = 1.5 ∧
    PairPosition.y (1.5, 2.5) = 2.5 ∧
    PairPosition.from_x_y 1.5 2.5 = (1.5, 2.5) ∧
    TriplePosition.from_json_value
        (JsonValue.arr [JsonValue.num 1.5, JsonValue.num 2.5]) = PResult.panic ∧
    TriplePosition.from_x_y 1.5 2.5 = PResult.panic :=
  ⟨rfl, rfl, rfl, rfl, rfl, rfl, rfl, rfl, rfl, rfl⟩

/-- C8: the fixed-arity representations never silently truncate, pad or
default: the 2-tuple parser never returns Ok on an array whose length is
not 2, the 3-tuple parser never returns Ok on an array whose length is
not 3, and the 3-tuple `from_x_y` never returns a constructed value. -/
theorem fixed_arity_never_ok :
    (∀ elems : List JsonValue, elems.length ≠ 2 →
      ∀ p : ℚ × ℚ, PairPosition.from_json_value (JsonValue.arr elems) ≠ PResult.ok p) ∧
    (∀ elems : List JsonValue, elems.length ≠ 3 →
      ∀ p : ℚ × ℚ × ℚ, TriplePosition.from_json_value (JsonValue.arr elems) ≠ PResult.ok p) ∧
    (∀ (x y : ℚ) (p : ℚ × ℚ × ℚ), TriplePosition.from_x_y x y ≠ PResult.ok p) := by
  refine ⟨?_, ?_, ?_⟩
  · intro elems hlen p h
    rcases elems with _ | ⟨a, elems⟩
    · exact PResult.noConfusion h
    rcases elems with _ | ⟨b, elems⟩
    · exact PResult.noConfusion h
    rcases elems with _ | ⟨c, elems⟩
    · exact hlen rfl
    · exact PResult.noConfusion h
  · intro elems hlen p h
    rcases elems with _ | ⟨a, elems⟩
    · exact PResult.noConfusion h
    rcases elems with _ | ⟨b, elems⟩
    · exact PResult.noConfusion h
    rcases elems with _ | ⟨c, elems⟩
    · exact PResult.noConfusion h
    rcases elems with _ | ⟨d, elems⟩
    · exact hlen rfl
    · exact PResult.noConfusion h
  · intro x y p h
    exact PResult.noConfusion h

/-- C8 witness: concrete wrong-arity inputs are never Ok. -/
theorem fixed_arity_never_ok_witness :
    PairPosition.from_json_value (JsonValue.arr []) ≠ PResult.ok (1.5, 2.5) ∧
    TriplePosition.from_json_value (JsonValue.arr []) ≠ PResult.ok (1.5, 2.5, 0) ∧
    TriplePosition.from_x_y 1.5 2.5 ≠ PResult.ok (1.5, 2.5, 0) :=
  ⟨fixed_arity_never_ok.1 [] (by decide) (1.5, 2.5),
   fixed_arity_never_ok.2.1 [] (by decide) (1.5, 2.5, 0),
   fixed_arity_never_ok.2.2 1.5 2.5 (1.5, 2.5, 0)⟩

/-- C9 counterexample: the `Vec<f64>` accessors index with `self[0]` /
`self[1]`, which aborts on vectors that are too short, so the accessors
do not always succeed on every value of the representation. -/
theorem accessors_never_fail_cex :
    VecPosition.x ([] : List ℚ) = PResult.panic ∧
    VecPosition.y ([1.5] : List ℚ) = PResult.panic :=
  ⟨rfl, rfl⟩

/-- C9 amended: the tuple accessors are total ordinate projections and
never fail, and the `Vec<f64>` accessors never fail on any vector with at
least two elements (they abort on shorter vectors). -/
theorem accessors_amended (xs : List ℚ) (h : 2 ≤ xs.length)
    (p : ℚ × ℚ) (t : ℚ × ℚ × ℚ) :
    (∃ q, VecPosition.x xs = PResult.ok q) ∧
    (∃ q, VecPosition.y xs = PResult.ok q) ∧
    PairPosition.x p = p.1 ∧ PairPosition.y p = p.2 ∧
    TriplePosition.x t = t.1 ∧ TriplePosition.y t = t.2.1 := by
  rcases xs with _ | ⟨a, xs⟩
  · simp at h
  rcases xs with _ | ⟨b, xs⟩
  · simp at h
  exact ⟨⟨a, rfl⟩, ⟨b, rfl⟩, rfl, rfl, rfl, rfl⟩

/-- C9 witness: the amended statement at `[1.5, 2.5]`. -/
theorem accessors_amended_witness :
    VecPosition.x [1.5, 2.5] = PResult.ok 1.5 ∧
    VecPosition.y [1.5, 2.5] = PResult.ok 2.5 ∧
    PairPosition.x (1.5, 2.5) = 1.5 ∧ PairPosition.y (1.5, 2.5) = 2.5 ∧
    TriplePosition.x (1.5, 2.5, 3.5) = 1.5 ∧ TriplePosition.y (1.5, 2.5, 3.5) = 2.5 := by
  have h := accessors_amended [1.5, 2.5] (by decide) (1.5, 2.5) (1.5, 2.5, 3.5)
  exact ⟨rfl, rfl, h.2.2.1, h.2.2.2.1, h.2.2.2.2.1, h.2.2.2.2.2⟩

/-- C10: the `Vec<f64>` parser imposes no arity constraint: every
all-numeric JSON array (any length, 0 and 1 included) parses to the list
of its floats in input order; a non-array input, or an array containing a
non-numeric element, yields a typed error. -/
theorem vec_position_no_arity (v : JsonValue) :
    (∀ qs : List ℚ, v = JsonValue.arr (qs.map JsonValue.num) →
        VecPosition.from_json_value v = Except.ok qs) ∧
    ((∀ elems : List JsonValue, v ≠ JsonValue.arr elems) →
        ∃ e, VecPosition.from_json_value v = Except.error e) ∧
    (∀ elems : List JsonValue, v = JsonValue.arr elems →
        (∃ x ∈ elems, ∀ q : ℚ, x ≠ JsonValue.num q) →
        ∃ e, VecPosition.from_json_value v = Except.error e) := by
  refine ⟨?_, ?_, ?_⟩
  · rintro qs rfl
    simp [VecPosition.from_json_value, expect_array]
  · intro hv
    cases v
    case arr elems => exact absurd rfl (hv elems)
    all_goals exact ⟨_, rfl⟩
  · rintro elems rfl hbad
    obtain ⟨e, he⟩ := expect_f64_list_error_of_mem elems hbad
    exact ⟨e, by simp [VecPosition.from_json_value, expect_array, he]⟩

/-- C10 witness: `[1.5]` parses (length 1 allowed), a string root errors,
and an array containing `null` errors. -/
theorem vec_position_no_arity_witness :
    VecPosition.from_json_value (JsonValue.arr [JsonValue.num 1.5]) = Except.ok [1.5] ∧
    VecPosition.from_json_value (JsonValue.str "p") =
      Except.error (Error.ExpectedArrayValue (JsonValue.str "p")) ∧
    VecPosition.from_json_value (JsonValue.arr [JsonValue.null]) =
      Except.error (Error.ExpectedNumericValue JsonValue.null) :=
  ⟨(vec_position_no_arity (JsonValue.arr [JsonValue.num 1.5])).1 [1.5] rfl, rfl, rfl⟩

/-! ### Reserved-key facts -/

theorem keys_ne_reserved (M : JsonObject) (hout : ∀ k ∈ M.Keys, k ∉ reservedKeys)
    (r : String) (hr : r ∈ reservedKeys) : ∀ k ∈ M.Keys, k ≠ r :=
  fun k hk he => hout k hk (by rw [he]; exact hr)

theorem get_reserved_none (M : JsonObject) (hout : ∀ k ∈ M.Keys, k ∉ reservedKeys)
    (r : String) (hr : r ∈ reservedKeys) : JsonObject.get M r = none :=
  JsonObject.get_of_forall_ne M r (keys_ne_reserved M hout r hr)

theorem removeAll_reserved_id (M : JsonObject) (hout : ∀ k ∈ M.Keys, k ∉ reservedKeys)
    (r : String) (hr : r ∈ reservedKeys) : M.removeAll r = M :=
  JsonObject.removeAll_of_forall_ne M r (keys_ne_reserved M hout r hr)

theorem foreignEntries_keys (fc : FeatureCollection) (h : fc.WFForeign) :
    ∀ k ∈ fc.foreignEntries.Keys, k ∉ reservedKeys := by
  unfold FeatureCollection.foreignEntries
  cases hom : fc.foreign_members with
  | none => simp
  | some members => exact (h members hom).2

theorem foreignEntries_nodup (fc : FeatureCollection) (h : fc.WFForeign) :
    fc.foreignEntries.Keys.Nodup := by
  unfold FeatureCollection.foreignEntries
  cases hom : fc.foreign_members with
  | none => simp
  | some members => exact (h members hom).1

/-! ### Explicit forms of the two serialization paths -/

theorem serializeEntries_eq (fc : FeatureCollection) (h : fc.WFForeign) :
    fc.serializeEntries =
      [("type", JsonValue.str "FeatureCollection")] ++ fc.bboxEntries ++
        fc.foreignEntries ++
        [("features", JsonValue.arr (fc.features.map Feature.toJson))] := by
  have hout := foreignEntries_keys fc h
  have hnd := foreignEntries_nodup fc h
  unfold FeatureCollection.serializeEntries
  dsimp only
  have hbase :
      (match fc.bbox with
        | some bbox =>
            JsonObject.insert [("type", JsonValue.str "FeatureCollection")] "bbox"
              (JsonValue.arr (bbox.map JsonValue.num))
        | none => [("type", JsonValue.str "FeatureCollection")]) =
        [("type", JsonValue.str "FeatureCollection")] ++ fc.bboxEntries := by
    unfold FeatureCollection.bboxEntries
    cases fc.bbox <;> simp [JsonObject.insert]
  rw [show JsonObject.insert [] "type" (JsonValue.str "FeatureCollection") =
        [("type", JsonValue.str "FeatureCollection")] from rfl]
  rw [hbase]
  have hbasekeys : ∀ k₀ ∈ JsonObject.Keys
      ([("type", JsonValue.str "FeatureCollection")] ++ fc.bboxEntries),
      k₀ = "type" ∨ k₀ = "bbox" := by
    intro k₀ hk₀
    rw [JsonObject.Keys_append] at hk₀
    rcases List.mem_append.mp hk₀ with h1 | h2
    · left; simpa using h1
    · right
      unfold FeatureCollection.bboxEntries at h2
      rcases hob : fc.bbox with _ | bbox
      · rw [hob] at h2; simp at h2
      · rw [hob] at h2; simpa using h2
  have hfold :
      (match fc.foreign_members with
        | some members =>
            members.foldl (fun (m : JsonObject) (kv : String × JsonValue) =>
              m.insert kv.1 kv.2)
              ([("type", JsonValue.str "FeatureCollection")] ++ fc.bboxEntries)
        | none => [("type", JsonValue.str "FeatureCollection")] ++ fc.bboxEntries) =
        [("type", JsonValue.str "FeatureCollection")] ++ fc.bboxEntries ++
          fc.foreignEntries := by
    unfold FeatureCollection.foreignEntries
    cases hom : fc.foreign_members with
    | none => simp
    | some members =>
      dsimp only
      obtain ⟨hnd₁, hout₁⟩ := h members hom
      rw [JsonObject.foldl_insert_fresh members _ hnd₁]
      intro k hk k₀ hk₀
      rcases hbasekeys k₀ hk₀ with rfl | rfl
      · exact (keys_ne_reserved members hout₁ "type" (by simp [reservedKeys]) k hk).symm
      · exact (keys_ne_reserved members hout₁ "bbox" (by simp [reservedKeys]) k hk).symm
  rw [hfold]
  rw [JsonObject.insert_of_forall_ne]
  intro k₀ hk₀
  rw [JsonObject.Keys_append, JsonObject.Keys_append] at hk₀
  rcases List.mem_append.mp hk₀ with h12 | h3
  · rcases List.mem_append.mp h12 with h1 | h2
    · have : k₀ = "type" := by simpa using h1
      subst this; decide
    · unfold FeatureCollection.bboxEntries at h2
      rcases hob : fc.bbox with _ | bbox
      · rw [hob] at h2; simp at h2
      · rw [hob] at h2
        have : k₀ = "bbox" := by simpa using h2
        subst this; decide
  · exact keys_ne_reserved fc.foreignEntries hout "features" (by simp [reservedKeys]) k₀ h3

theorem to_json_object_eq (fc : FeatureCollection) (h : fc.WFForeign) :
    fc.to_json_object =
      [("type", JsonValue.str "FeatureCollection"),
       ("features", JsonValue.arr (fc.features.map Feature.toJson))] ++
        fc.bboxEntries ++ fc.foreignEntries := by
  have hout := foreignEntries_keys fc h
  unfold FeatureCollection.to_json_object
  dsimp only
  have hbase :
      (match fc.bbox with
        | some bbox =>
            JsonObject.insert
              [("type", JsonValue.str "FeatureCollection"),
               ("features", JsonValue.arr (fc.features.map Feature.toJson))] "bbox"
              (JsonValue.arr (bbox.map JsonValue.num))
        | none =>
            [("type", JsonValue.str "FeatureCollection"),
             ("features", JsonValue.arr (fc.features.map Feature.toJson))]) =
        [("type", JsonValue.str "FeatureCollection"),
         ("features", JsonValue.arr (fc.features.map Feature.toJson))] ++
          fc.bboxEntries := by
    unfold FeatureCollection.bboxEntries
    cases fc.bbox <;> simp [JsonObject.insert]
  rw [show JsonObject.insert (JsonObject.insert [] "type" (JsonValue.str "FeatureCollection"))
        "features" (JsonValue.arr (fc.features.map Feature.toJson)) =
        [("type", JsonValue.str "FeatureCollection"),
         ("features", JsonValue.arr (fc.features.map Feature.toJson))] from rfl]
  rw [hbase]
  unfold FeatureCollection.foreignEntries
  cases hom : fc.foreign_members with
  | none => simp
  | some members =>
    dsimp only
    obtain ⟨hnd₁, hout₁⟩ := h members hom
    rw [JsonObject.foldl_insert_fresh members _ hnd₁]
    intro k hk k₀ hk₀
    rw [JsonObject.Keys_append] at hk₀
    rcases List.mem_append.mp hk₀ with h12 | h2
    · rcases (by simpa using h12 : k₀ = "type" ∨ k₀ = "features") with rfl | rfl
      · exact (keys_ne_reserved members hout₁ "type" (by simp [reservedKeys]) k hk).symm
      · exact (keys_ne_reserved members hout₁ "features" (by simp [reservedKeys]) k hk).symm
    · unfold FeatureCollection.bboxEntries at h2
      rcases hob : fc.bbox with _ | bbox
      · rw [hob] at h2; simp at h2
      · rw [hob] at h2
        have : k₀ = "bbox" := by simpa using h2
        subst this
        exact (keys_ne_reserved members hout₁ "bbox" (by simp [reservedKeys]) k hk).symm

/-- C2: `serialize` always emits an object with key order "type", then
"bbox" when present, then each foreign-member key in stored order, then
"features" (always present); `bboxEntries`/`foreignEntries` are empty
when the corresponding field is absent. -/
theorem serialize_key_order (fc : FeatureCollection) (h : fc.WFForeign) :
    fc.serialize = JsonValue.obj
      ([("type", JsonValue.str "FeatureCollection")] ++ fc.bboxEntries ++
        fc.foreignEntries ++
        [("features", JsonValue.arr (fc.features.map Feature.toJson))]) := by
  unfold FeatureCollection.serialize
  rw [serializeEntries_eq fc h]

/-- C2 witness: the empty collection serializes to exactly the two-key
object `{"type":"FeatureCollection","features":[]}`. -/
theorem serialize_key_order_witness :
    FeatureCollection.serialize ⟨none, [], none⟩ =
      JsonValue.obj [("type", JsonValue.str "FeatureCollection"),
                     ("features", JsonValue.arr [])] :=
  (serialize_key_order ⟨none, [], none⟩ (fun _ hm => Option.noConfusion hm)).trans rfl

/-- C5: `to_json_object` produces the canonical insertion order "type",
"features", "bbox" (only when present), then the foreign-member keys,
and has exactly the same key/value content as the `serialize` path. -/
theorem to_json_object_content_order (fc : FeatureCollection) (h : fc.WFForeign) :
    fc.to_json_object =
      [("type", JsonValue.str "FeatureCollection"),
       ("features", JsonValue.arr (fc.features.map Feature.toJson))] ++
        fc.bboxEntries ++ fc.foreignEntries ∧
    ∀ k, fc.to_json_object.get k = fc.serializeEntries.get k := by
  have hout := foreignEntries_keys fc h
  refine ⟨to_json_object_eq fc h, ?_⟩
  intro k
  rw [to_json_object_eq fc h, serializeEntries_eq fc h]
  by_cases ht : k = "type"
  · subst ht
    simp [JsonObject.get_append]
  by_cases hf : k = "features"
  · subst hf
    have hM := get_reserved_none fc.foreignEntries hout "features" (by simp [reservedKeys])
    have hB : JsonObject.get fc.bboxEntries "features" = none := by
      unfold FeatureCollection.bboxEntries
      rcases hob : fc.bbox with _ | bbox
      · rfl
      · simp
    simp [JsonObject.get_append, hM, hB]
  by_cases hb : k = "bbox"
  · subst hb
    have hM := get_reserved_none fc.foreignEntries hout "bbox" (by simp [reservedKeys])
    cases hgb : JsonObject.get fc.bboxEntries "bbox" <;>
      simp [JsonObject.get_append, hM, hgb]
  · have hB : JsonObject.get fc.bboxEntries k = none := by
      unfold FeatureCollection.bboxEntries
      rcases hob : fc.bbox with _ | bbox
      · rfl
      · simp [Ne.symm hb]
    cases hgm : JsonObject.get fc.foreignEntries k <;>
      simp [JsonObject.get_append, hB, hgm, Ne.symm ht, Ne.symm hf]

/-- C5 witness: the statement at a collection with a bbox and one
foreign member. -/
theorem to_json_object_content_order_witness :
    FeatureCollection.to_json_object
        ⟨some [1, 2, 3, 4], [], some [("count", JsonValue.num 7)]⟩ =
      [("type", JsonValue.str "FeatureCollection"),
       ("features", JsonValue.arr []),
       ("bbox", JsonValue.arr [JsonValue.num 1, JsonValue.num 2,
                               JsonValue.num 3, JsonValue.num 4]),
       ("count", JsonValue.num 7)] ∧
    (FeatureCollection.to_json_object
        ⟨some [1, 2, 3, 4], [], some [("count", JsonValue.num 7)]⟩).get "count" =
      (FeatureCollection.serializeEntries
        ⟨some [1, 2, 3, 4], [], some [("count", JsonValue.num 7)]⟩).get "count" := by
  have hwf : FeatureCollection.WFForeign
      ⟨some [1, 2, 3, 4], [], some [("count", JsonValue.num 7)]⟩ := by
    intro members hm
    have hmem : members = [("count", JsonValue.num 7)] := by
      simpa using hm.symm
    subst hmem
    refine ⟨by simp, ?_⟩
    intro k hk
    have : k = "count" := by simpa using hk
    subst this
    decide
  have := to_json_object_content_order
      ⟨some [1, 2, 3, 4], [], some [("count", JsonValue.num 7)]⟩ hwf
  exact ⟨this.1.trans rfl, this.2 "count"⟩

/-! ### Inversion facts for the parsing pipeline -/

theorem expect_type_ok (o : JsonObject) (ty : String) (o₁ : JsonObject)
    (h : expect_type o = Except.ok (ty, o₁)) :
    o.get "type" = some (JsonValue.str ty) ∧ o₁ = o.removeAll "type" := by
  unfold expect_type at h
  split at h
  next s hg =>
    simp only [Except.ok.injEq, Prod.mk.injEq] at h
    obtain ⟨hs, ho⟩ := h
    subst hs
    exact ⟨hg, ho.symm⟩
  next v hg hns => cases h
  next hg => cases h

theorem get_bbox_ok (o : JsonObject) (b : Option (List ℚ)) (o₁ : JsonObject)
    (h : get_bbox o = Except.ok (b, o₁)) : o₁ = o.removeAll "bbox" := by
  unfold get_bbox at h
  split at h
  next hg =>
    simp only [Except.ok.injEq, Prod.mk.injEq] at h
    rw [JsonObject.removeAll_of_get_none o "bbox" hg]
    exact h.2.symm
  next v hg =>
    split at h
    · cases h
    · split at h
      · cases h
      · simp only [Except.ok.injEq, Prod.mk.injEq] at h
        exact h.2.symm

theorem get_features_ok (o : JsonObject) (fs : List Feature) (o₁ : JsonObject)
    (h : get_features o = Except.ok (fs, o₁)) : o₁ = o.removeAll "features" := by
  unfold get_features at h
  split at h
  next hg => cases h
  next v hg =>
    split at h
    · cases h
    · split at h
      · cases h
      · simp only [Except.ok.injEq, Prod.mk.injEq] at h
        exact h.2.symm

theorem removeAll_reserved_eq_filter (o : JsonObject) :
    ((o.removeAll "type").removeAll "bbox").removeAll "features" =
      o.filter (fun kv => !(reservedKeys.contains kv.1)) := by
  induction o with
  | nil => rfl
  | cons p rest ih =>
    obtain ⟨k, v⟩ := p
    by_cases h1 : k = "type"
    · simp [h1, reservedKeys, ih]
    by_cases h2 : k = "bbox"
    · simp [h1, h2, reservedKeys, ih]
    by_cases h3 : k = "features"
    · simp [h1, h2, h3, reservedKeys, ih]
    · simp [h1, h2, h3, reservedKeys, ih]

/-- C6: whenever `from_json_object` succeeds, the resulting
`foreign_members` holds exactly the input keys outside the reserved set
{"type","bbox","features"}, values verbatim and in encountered order,
and collapses to `none` rather than an empty map. -/
theorem foreign_members_exact (o : JsonObject) (fc : FeatureCollection)
    (h : FeatureCollection.from_json_object o = Except.ok fc) :
    fc.foreign_members =
      (if (o.filter fun kv => !(reservedKeys.contains kv.1)).isEmpty then none
       else some (o.filter fun kv => !(reservedKeys.contains kv.1))) := by
  unfold FeatureCollection.from_json_object at h
  split at h
  next e h1 => cases h
  next ty o₁ h1 =>
    split at h
    case isTrue hty =>
      split at h
      next e h2 => cases h
      next b o₂ h2 =>
        split at h
        next e h3 => cases h
        next fs o₃ h3 =>
          split at h
          next e h4 => cases h
          next fm h4 =>
            simp only [Except.ok.injEq] at h
            subst h
            have e1 : o₁ = o.removeAll "type" := (expect_type_ok o ty o₁ h1).2
            have e2 : o₂ = o₁.removeAll "bbox" := get_bbox_ok o₁ b o₂ h2
            have e3 : o₃ = o₂.removeAll "features" := get_features_ok o₂ fs o₃ h3
            have hfil : (o.filter fun kv => !(reservedKeys.contains kv.1)) = o₃ := by
              rw [← removeAll_reserved_eq_filter, ← e1, ← e2, ← e3]
            unfold get_foreign_members at h4
            split at h4
            case isTrue hemp =>
              simp only [Except.ok.injEq] at h4
              subst h4
              rw [hfil, if_pos hemp]
            case isFalse hemp =>
              simp only [Except.ok.injEq] at h4
              subst h4
              rw [hfil, if_neg hemp]
    case isFalse hty => cases h

/-- C6 witness: parsing a concrete object whose only non-reserved key is
"count" yields exactly that key as the foreign members. -/
theorem foreign_members_exact_witness :
    (some [("count", JsonValue.num 7)] : Option JsonObject) =
      (if (([("type", JsonValue.str "FeatureCollection"),
            ("features", JsonValue.arr []),
            ("count", JsonValue.num 7)] : JsonObject).filter
             (fun kv => !(reservedKeys.contains kv.1))).isEmpty then none
       else some (([("type", JsonValue.str "FeatureCollection"),
            ("features", JsonValue.arr []),
            ("count", JsonValue.num 7)] : JsonObject).filter
             (fun kv => !(reservedKeys.contains kv.1)))) :=
  foreign_members_exact
    [("type", JsonValue.str "FeatureCollection"),
     ("features", JsonValue.arr []),
     ("count", JsonValue.num 7)]
    ⟨none, [], some [("count", JsonValue.num 7)]⟩ rfl

/-! ### Facts about the bbox entry block -/

theorem bboxEntries_removeAll_ne (fc : FeatureCollection) (r : String)
    (h : r ≠ "bbox") : fc.bboxEntries.removeAll r = fc.bboxEntries := by
  unfold FeatureCollection.bboxEntries
  cases fc.bbox with
  | none => rfl
  | some bbox => simp [Ne.symm h]

theorem bboxEntries_removeAll_bbox (fc : FeatureCollection) :
    fc.bboxEntries.removeAll "bbox" = [] := by
  unfold FeatureCollection.bboxEntries
  cases fc.bbox with
  | none => rfl
  | some bbox => simp

theorem bboxEntries_get_bbox (fc : FeatureCollection) :
    JsonObject.get fc.bboxEntries "bbox" =
      Option.map (fun b => JsonValue.arr (b.map JsonValue.num)) fc.bbox := by
  unfold FeatureCollection.bboxEntries
  cases fc.bbox with
  | none => rfl
  | some bbox => simp

theorem bboxEntries_get_ne (fc : FeatureCollection) (r : String) (h : r ≠ "bbox") :
    JsonObject.get fc.bboxEntries r = none := by
  unfold FeatureCollection.bboxEntries
  cases fc.bbox with
  | none => rfl
  | some bbox => simp [Ne.symm h]

theorem foreign_collapse (fc : FeatureCollection) (h : fc.Valid) :
    fc.foreign_members =
      if fc.foreignEntries.isEmpty then none else some fc.foreignEntries := by
  unfold FeatureCollection.foreignEntries
  cases hom : fc.foreign_members with
  | none => rfl
  | some members =>
    have hne := h.2 members hom
    cases members with
    | nil => exact absurd rfl hne
    | cons p rest => rfl

/-- Parsing succeeds and recovers `fc` from any object whose "type" tag
is correct, whose "bbox" is the serialized bbox of `fc`, whose
"features" member is the serialized features of `fc`, and whose
remainder matches the foreign members of `fc`. -/
theorem from_json_object_shape (o : JsonObject) (fc : FeatureCollection)
    (h1 : o.get "type" = some (JsonValue.str "FeatureCollection"))
    (h2 : o.get "bbox" =
          Option.map (fun b => JsonValue.arr (b.map JsonValue.num)) fc.bbox)
    (h3 : ((o.removeAll "type").removeAll "bbox").get "features" =
            some (JsonValue.arr (fc.features.map Feature.toJson)))
    (h4 : fc.foreign_members =
            (if (((o.removeAll "type").removeAll "bbox").removeAll "features").isEmpty
             then none
             else some (((o.removeAll "type").removeAll "bbox").removeAll "features"))) :
    FeatureCollection.from_json_object o = Except.ok fc := by
  obtain ⟨ob, fs, om⟩ := fc
  dsimp only at h2 h3 h4
  have hb0 : (o.removeAll "type").get "bbox" = o.get "bbox" :=
    JsonObject.get_removeAll_ne o "type" "bbox" (by decide)
  have ht : expect_type o = Except.ok ("FeatureCollection", o.removeAll "type") := by
    unfold expect_type
    rw [h1]
  have hb : get_bbox (o.removeAll "type") =
      Except.ok (ob, (o.removeAll "type").removeAll "bbox") := by
    unfold get_bbox
    rw [hb0, h2]
    cases ob with
    | none =>
      dsimp only [Option.map]
      rw [JsonObject.removeAll_of_get_none (o.removeAll "type") "bbox" (by rw [hb0, h2]; rfl)]
    | some bbox =>
      dsimp only [Option.map]
      rw [show expect_array (JsonValue.arr (List.map JsonValue.num bbox)) =
            Except.ok (List.map JsonValue.num bbox) from rfl]
      dsimp only
      rw [expect_f64_list_map_num]
  have hf : get_features ((o.removeAll "type").removeAll "bbox") =
      Except.ok (fs, ((o.removeAll "type").removeAll "bbox").removeAll "features") := by
    unfold get_features
    rw [h3]
    dsimp only
    rw [show expect_array (JsonValue.arr (List.map Feature.toJson fs)) =
          Except.ok (List.map Feature.toJson fs) from rfl]
    dsimp only
    rw [parse_features_map_toJson]
  unfold FeatureCollection.from_json_object
  rw [ht]
  dsimp only
  rw [if_pos rfl, hb]
  dsimp only
  rw [hf]
  dsimp only
  rw [h4]
  unfold get_foreign_members
  by_cases hemp :
      ((((o.removeAll "type").removeAll "bbox").removeAll "features")).isEmpty
  · rw [if_pos hemp, if_pos hemp]
  · rw [if_neg hemp, if_neg hemp]

/-- C1: for every valid FeatureCollection (bbox optional, features
arbitrary, foreign members absent or a non-empty map with keys outside
the reserved set), parsing `to_json_object fc` with `from_json_object`
yields Ok fc exactly, and so does parsing the `serialize` output with
`from_json_value`. -/
theorem roundtrip (fc : FeatureCollection) (h : fc.Valid) :
    FeatureCollection.from_json_object fc.to_json_object = Except.ok fc ∧
    FeatureCollection.from_json_value fc.serialize = Except.ok fc := by
  have hwf := h.1
  have hout := foreignEntries_keys fc hwf
  have hMget : ∀ r, r ∈ reservedKeys → JsonObject.get fc.foreignEntries r = none :=
    fun r hr => get_reserved_none fc.foreignEntries hout r hr
  have hMrem : ∀ r, r ∈ reservedKeys → fc.foreignEntries.removeAll r = fc.foreignEntries :=
    fun r hr => removeAll_reserved_id fc.foreignEntries hout r hr
  constructor
  · rw [to_json_object_eq fc hwf]
    apply from_json_object_shape
    · simp
    · cases hob : fc.bbox with
      | none =>
        simp [JsonObject.get_append, bboxEntries_get_bbox, hob,
              hMget "bbox" (by simp [reservedKeys])]
      | some bbox =>
        simp [JsonObject.get_append, bboxEntries_get_bbox, hob]
    · simp [JsonObject.removeAll_append, bboxEntries_removeAll_ne,
            bboxEntries_removeAll_bbox,
            hMrem "type" (by simp [reservedKeys]),
            hMrem "bbox" (by simp [reservedKeys]),
            JsonObject.get_append]
    · have hchain :
          JsonObject.removeAll
            (JsonObject.removeAll
              (JsonObject.removeAll
                ([("type", JsonValue.str "FeatureCollection"),
                  ("features", JsonValue.arr (fc.features.map Feature.toJson))] ++
                  fc.bboxEntries ++ fc.foreignEntries) "type") "bbox") "features" =
            fc.foreignEntries := by
        simp [JsonObject.removeAll_append, bboxEntries_removeAll_ne,
              bboxEntries_removeAll_bbox,
              hMrem "type" (by simp [reservedKeys]),
              hMrem "bbox" (by simp [reservedKeys]),
              hMrem "features" (by simp [reservedKeys])]
      rw [hchain]
      exact foreign_collapse fc h
  · show FeatureCollection.from_json_object fc.serializeEntries = Except.ok fc
    rw [serializeEntries_eq fc hwf]
    apply from_json_object_shape
    · simp
    · cases hob : fc.bbox with
      | none =>
        simp [JsonObject.get_append, bboxEntries_get_bbox, hob,
              hMget "bbox" (by simp [reservedKeys])]
      | some bbox =>
        simp [JsonObject.get_append, bboxEntries_get_bbox, hob]
    · simp [JsonObject.removeAll_append, bboxEntries_removeAll_ne,
            bboxEntries_removeAll_bbox,
            hMrem "type" (by simp [reservedKeys]),
            hMrem "bbox" (by simp [reservedKeys]),
            JsonObject.get_append,
            hMget "features" (by simp [reservedKeys])]
    · have hchain :
          JsonObject.removeAll
            (JsonObject.removeAll
              (JsonObject.removeAll
                ([("type", JsonValue.str "FeatureCollection")] ++
                  fc.bboxEntries ++ fc.foreignEntries ++
                  [("features", JsonValue.arr (fc.features.map Feature.toJson))]) "type")
              "bbox") "features" =
            fc.foreignEntries := by
        simp [JsonObject.removeAll_append, bboxEntries_removeAll_ne,
              bboxEntries_removeAll_bbox,
              hMrem "type" (by simp [reservedKeys]),
              hMrem "bbox" (by simp [reservedKeys]),
              hMrem "features" (by simp [reservedKeys])]
      rw [hchain]
      exact foreign_collapse fc h

/-- C1 witness: the round-trip at a concrete collection with a bbox, one
feature, and one foreign member. -/
theorem roundtrip_witness :
    FeatureCollection.from_json_object
        (FeatureCollection.to_json_object
          ⟨some [1, 2], [⟨[]⟩], some [("count", JsonValue.num 7)]⟩) =
      Except.ok ⟨some [1, 2], [⟨[]⟩], some [("count", JsonValue.num 7)]⟩ ∧
    FeatureCollection.from_json_value
        (FeatureCollection.serialize
          ⟨some [1, 2], [⟨[]⟩], some [("count", JsonValue.num 7)]⟩) =
      Except.ok ⟨some [1, 2], [⟨[]⟩], some [("count", JsonValue.num 7)]⟩ := by
  have hval : FeatureCollection.Valid
      ⟨some [1, 2], [⟨[]⟩], some [("count", JsonValue.num 7)]⟩ := by
    constructor
    · intro members hm
      have hmem : members = [("count", JsonValue.num 7)] := by
        simpa using hm.symm
      subst hmem
      refine ⟨by simp, ?_⟩
      intro k hk
      have hkc : k = "count" := by simpa using hk
      subst hkc
      decide
    · intro members hm
      have hmem : members = [("count", JsonValue.num 7)] := by
        simpa using hm.symm
      subst hmem
      simp
  exact roundtrip _ hval

end Geojson
